import Mathlib

/-!
# Verification of the UConn syllabi scraper's extraction core

A shallow embedding, in Lean 4, of the pure extraction/normalisation logic of
the `uconn_syllabi_scrapy` project:

* `uconn_syllabi_spider.py` — `_extract_term_options`, `_split_class`,
  `col_index` (inside `_parse_results_table`), `_parse_results_table`, and the
  per-row record construction of `parse_term_results`;
* `pipelines.py` — `UConnFilesPipeline.file_path` and
  `UConnFilesPipeline.item_completed`.

Python string primitives (`str.strip`, `str.split(None, 1)`, `str.isdigit`,
`str.upper`, substring membership `in`, `re.sub(r"[^\w]", "", ·)`,
`urllib.parse.urlparse` / `parse_qs` / `unquote`, `hashlib.sha1`,
`os.path.basename` / `os.path.join`) are modelled on `List Char` / `String`.
The models cover the ASCII behaviour of these primitives (the site's data is
ASCII); Unicode-only refinements (non-ASCII whitespace classes, non-ASCII
word characters, multi-byte percent-decoding) are outside the model.
-/

namespace UconnSyllabi

/-! ## Python string primitives -/

/-- ASCII whitespace, as recognised by Python's `str.strip()` / `str.split()`
(space, tab, newline, carriage return, vertical tab, form feed). -/
def pyIsSpace (c : Char) : Bool :=
  c = ' ' || c = '\t' || c = '\n' || c = '\x0d' || c = '\x0b' || c = '\x0c'

/-- `str.lstrip()` on the character list. -/
def lstripL (l : List Char) : List Char := l.dropWhile pyIsSpace

/-- `str.rstrip()` on the character list. -/
def rstripL (l : List Char) : List Char := (l.reverse.dropWhile pyIsSpace).reverse

/-- `str.strip()` on the character list. -/
def stripL (l : List Char) : List Char := rstripL (lstripL l)

/-- Python `str.strip()`. -/
def pyStrip (s : String) : String := ⟨stripL s.data⟩

/-- Python `str.isdigit()` restricted to ASCII: non-empty and all characters
are decimal digits. -/
def pyIsDigit (s : String) : Bool :=
  !s.data.isEmpty && s.data.all fun c => '0' ≤ c && c ≤ '9'

/-- Python `str.upper()` on one ASCII character. -/
def pyUpperChar (c : Char) : Char :=
  if 'a' ≤ c && c ≤ 'z' then Char.ofNat (c.toNat - 32) else c

/-- Python `str.lower()` on one ASCII character. -/
def pyLowerChar (c : Char) : Char :=
  if 'A' ≤ c && c ≤ 'Z' then Char.ofNat (c.toNat + 32) else c

/-- Python `str.upper()` (ASCII). -/
def pyUpper (s : String) : String := ⟨s.data.map pyUpperChar⟩

/-- Python `str.lower()` (ASCII). -/
def pyLower (s : String) : String := ⟨s.data.map pyLowerChar⟩

/-- A regex `\w` word character (ASCII): letter, digit or underscore. -/
def isWordChar (c : Char) : Bool :=
  ('a' ≤ c && c ≤ 'z') || ('A' ≤ c && c ≤ 'Z') || ('0' ≤ c && c ≤ '9') || c = '_'

/-- `re.sub(r"[^\w]", "", s)`: delete every non-word character. -/
def stripNonWord (s : String) : String := ⟨s.data.filter isWordChar⟩

/-- Python `needle in hay` prefix test on character lists. -/
def isPrefixB : List Char → List Char → Bool
  | [], _ => true
  | _ :: _, [] => false
  | a :: as, b :: bs => a = b && isPrefixB as bs

/-- Python substring membership `needle in hay` on character lists. -/
def containsL (hay needle : List Char) : Bool :=
  match hay with
  | [] => needle.isEmpty
  | _ :: t => isPrefixB needle hay || containsL t needle

/-- Python substring membership `needle in hay` on strings. -/
def pyContains (hay needle : String) : Bool := containsL hay.data needle.data

/-- Python `s.split(None, 1)` on the character list: drop leading whitespace;
if nothing is left, no parts; otherwise the first whitespace-free token, and —
when anything follows the first whitespace run — the remainder (which keeps
its own internal and trailing whitespace). -/
def splitNone1 (l : List Char) : List (List Char) :=
  let s := l.dropWhile pyIsSpace
  match s with
  | [] => []
  | _ :: _ =>
    let tok := s.takeWhile fun c => !pyIsSpace c
    let rest := (s.dropWhile fun c => !pyIsSpace c).dropWhile pyIsSpace
    if rest.isEmpty then [tok] else [tok, rest]

/-! ## `_split_class` (uconn_syllabi_spider.py, lines 56–63)

```python
def _split_class(class_name):
    parts = class_name.strip().split(None, 1)
    if len(parts) == 2:
        return parts[0].upper(), parts[1]
    if len(parts) == 1:
        return parts[0].upper(), ""
    return "", ""
```
-/

def splitClass (class_name : String) : String × String :=
  match splitNone1 (stripL class_name.data) with
  | [p0, p1] => (pyUpper ⟨p0⟩, (⟨p1⟩ : String))
  | [p0] => (pyUpper ⟨p0⟩, "")
  | _ => ("", "")

/-! ## Term Discovery: `_extract_term_options` (uconn_syllabi_spider.py, 31–53)

```python
selectors_to_try = ['select[name="term"] option', "select#term option", "form select option"]
for sel in selectors_to_try:
    options = response.css(sel)
    if options:
        results = []
        for opt in options:
            value = opt.attrib.get("value", "").strip()
            label = opt.css("::text").get("").strip()
            if value.isdigit():
                results.append((value, label))
        if results:
            return results
return []
```

The response is modelled by what each of the three CSS selectors returns: a
list of `<option>` elements, each carrying its `value` attribute (absent ↦
`none`, matching `attrib.get("value", "")`) and its first text node
(`css("::text").get("")`, absent ↦ `none`). -/

structure HtmlOption where
  value : Option String
  text : Option String
deriving DecidableEq, Repr

structure TermListResponse where
  /-- options matched by `select[name="term"] option` -/
  selNamed : List HtmlOption
  /-- options matched by `select#term option` -/
  selId : List HtmlOption
  /-- options matched by `form select option` -/
  selForm : List HtmlOption
deriving DecidableEq, Repr

/-- The inner `for opt in options` loop: keep `(value, label)` (both stripped)
exactly when the stripped value `isdigit()`. -/
def digitOptions (options : List HtmlOption) : List (String × String) :=
  options.filterMap fun opt =>
    let value := pyStrip (opt.value.getD "")
    let label := pyStrip (opt.text.getD "")
    if pyIsDigit value then some (value, label) else none

/-- The `for sel in selectors_to_try` loop: a selector is used when it yields
option elements AND the digit-filtered result is non-empty; otherwise the loop
falls through to the next selector. -/
def extractFromSelectors : List (List HtmlOption) → List (String × String)
  | [] => []
  | options :: rest =>
    if options.isEmpty then extractFromSelectors rest
    else
      let results := digitOptions options
      if results.isEmpty then extractFromSelectors rest else results

def extractTermOptions (r : TermListResponse) : List (String × String) :=
  extractFromSelectors [r.selNamed, r.selId, r.selForm]

/-- Result the spec's words prescribe for Term Discovery: use the FIRST
selector that yields any option elements, and digit-filter that selector's
options only (empty when the first non-empty selector has no digit-valued
options). Written from the spec, to be compared against
`extractTermOptions`. -/
def extractTermOptionsSpec (r : TermListResponse) : List (String × String) :=
  match [r.selNamed, r.selId, r.selForm].find? fun options => !options.isEmpty with
  | some options => digitOptions options
  | none => []

/-! ## Column Resolver: `col_index` (uconn_syllabi_spider.py, 95–105)

```python
def col_index(names, default):
    for name in names:
        for i, h in enumerate(headers):
            if name in h:
                return i
    return default
```
-/

def colIndex (names : List String) (headers : List String) (dflt : Nat) : Nat :=
  match names with
  | [] => dflt
  | name :: rest =>
    match headers.findIdx? fun h => pyContains h name with
    | some i => i
    | none => colIndex rest headers dflt

/-- Candidate-substring sets and positional defaults actually used
(uconn_syllabi_spider.py, 102–105). -/
def classCol (headers : List String) : Nat := colIndex ["class"] headers 1

def sectionCol (headers : List String) : Nat := colIndex ["section"] headers 2

def instructorCol (headers : List String) : Nat := colIndex ["instructor"] headers 3

def syllabiCol (headers : List String) : Nat := colIndex ["syllabi", "syllabus"] headers 4

/-- Result the spec's words prescribe for the Column Resolver: the index of
the FIRST header (lowest index) whose text contains ANY candidate substring,
else the default. Written from the spec, to be compared against
`colIndex`. -/
def colIndexSpec (names : List String) (headers : List String) (dflt : Nat) : Nat :=
  match headers.findIdx? (fun h => names.any fun name => pyContains h name) with
  | some i => i
  | none => dflt

/-! ## `urllib.parse` model (ASCII)

`urlparse(url).query` is the part after the first `?` of the pre-fragment
portion of the URL; `urlparse(url).path` is what is left of the pre-query
portion after stripping the scheme, the network location and the trailing
`;parameters` of the last path segment. `parse_qs` splits the query on `&`,
splits each field on the first `=`, drops fields without `=` and fields whose
raw value is empty, and percent-decodes (`unquote`, with `+` ↦ space). -/

def isHexDigit (c : Char) : Bool :=
  ('0' ≤ c && c ≤ '9') || ('a' ≤ c && c ≤ 'f') || ('A' ≤ c && c ≤ 'F')

def hexVal (c : Char) : Nat :=
  if '0' ≤ c && c ≤ '9' then c.toNat - '0'.toNat
  else if 'a' ≤ c && c ≤ 'f' then c.toNat - 'a'.toNat + 10
  else if 'A' ≤ c && c ≤ 'F' then c.toNat - 'A'.toNat + 10
  else 0

/-- `urllib.parse.unquote` on ASCII data: each valid `%XX` escape becomes the
character with code `XX`; an invalid escape is kept verbatim. -/
def pctDecode : List Char → List Char
  | [] => []
  | '%' :: h₁ :: h₂ :: rest =>
    if isHexDigit h₁ && isHexDigit h₂ then
      Char.ofNat (16 * hexVal h₁ + hexVal h₂) :: pctDecode rest
    else '%' :: pctDecode (h₁ :: h₂ :: rest)
  | c :: rest => c :: pctDecode rest

/-- `unquote(field.replace('+', ' '))` as `parse_qsl` applies to names and
values. -/
def unquotePlus (l : List Char) : List Char :=
  pctDecode (l.map fun c => if c = '+' then ' ' else c)

/-- Split a list at every occurrence of `sep` (Python `str.split(sep)`). -/
def splitOn (sep : Char) : List Char → List (List Char)
  | [] => [[]]
  | c :: rest =>
    let r := splitOn sep rest
    if c = sep then [] :: r
    else
      match r with
      | [] => [[c]]
      | h :: t => (c :: h) :: t

/-- `urllib.parse.parse_qsl(qs)` with default arguments: split on `&`; skip
empty fields and fields without `=`; keep a pair only when its raw value is
non-empty; `+`/percent-decode both sides. -/
def parseQsl (qs : List Char) : List (List Char × List Char) :=
  (splitOn '&' qs).filterMap fun field =>
    if field.isEmpty then none
    else
      let name := field.takeWhile fun c => c ≠ '='
      if name.length = field.length then none  -- no '=' in the field
      else
        let rawValue := (field.drop (name.length + 1))
        if rawValue.isEmpty then none  -- keep_blank_values=False
        else some (unquotePlus name, unquotePlus rawValue)

/-- `parse_qs(query).get("file", [""])[0]`: the first value listed under the
key `"file"`, or `""` when the key is absent. -/
def fileParamOf (query : List Char) : List Char :=
  match (parseQsl query).find? fun p => p.1 = "file".data with
  | some p => p.2
  | none => []

/-- `urlparse(url).query` (empty when the URL has no `?`). -/
def queryOf (url : List Char) : List Char :=
  let preFragment := url.takeWhile fun c => c ≠ '#'
  let rest := preFragment.dropWhile fun c => c ≠ '?'
  rest.drop 1

/-- RFC 3986 scheme characters as accepted by `urllib.parse`. -/
def isSchemeChar (c : Char) : Bool :=
  ('a' ≤ c && c ≤ 'z') || ('A' ≤ c && c ≤ 'Z') || ('0' ≤ c && c ≤ '9') ||
    c = '+' || c = '-' || c = '.'

/-- Strip a leading `scheme:` when the part before the first `:` is a
non-empty run of scheme characters. -/
def dropScheme (url : List Char) : List Char :=
  let scheme := url.takeWhile fun c => c ≠ ':'
  if !scheme.isEmpty && scheme.length < url.length && scheme.all isSchemeChar
  then url.drop (scheme.length + 1)
  else url

/-- Strip a leading `//netloc` (the network location runs to the next `/`,
`?` or `#`). -/
def dropNetloc (url : List Char) : List Char :=
  match url with
  | '/' :: '/' :: rest => rest.dropWhile fun c => c ≠ '/' && c ≠ '?' && c ≠ '#'
  | _ => url

/-- `urlparse`'s `_splitparams`: drop a `;parameters` suffix from the last
path segment. -/
def dropParams (path : List Char) : List Char :=
  let lastSeg := (path.reverse.takeWhile fun c => c ≠ '/').reverse
  if lastSeg.any fun c => c = ';' then
    path.take (path.length - lastSeg.length + (lastSeg.takeWhile fun c => c ≠ ';').length)
  else path

/-- `urlparse(url).path`. -/
def pathOf (url : List Char) : List Char :=
  dropParams (dropNetloc (dropScheme (url.takeWhile fun c => c ≠ '#' && c ≠ '?')))

/-- Python `s.replace("%7C", "|")` (left-to-right, non-overlapping — for this
three-character pattern plain scanning). -/
def replace7C : List Char → List Char
  | '%' :: '7' :: 'C' :: rest => '|' :: replace7C rest
  | c :: rest => c :: replace7C rest
  | [] => []

/-! ## `hashlib.sha1` (FIPS 180-4) on 32-bit words modelled as `Nat % 2^32` -/

def w32 (n : Nat) : Nat := n % 4294967296

def rotl32 (n x : Nat) : Nat := w32 (x <<< n) ||| (w32 x >>> (32 - n))

def not32 (x : Nat) : Nat := 4294967295 ^^^ w32 x

/-- UTF-8 encoding of one code point (`str.encode()`). -/
def utf8Bytes (c : Char) : List Nat :=
  let n := c.toNat
  if n < 128 then [n]
  else if n < 2048 then [192 + n / 64, 128 + n % 64]
  else if n < 65536 then [224 + n / 4096, 128 + n / 64 % 64, 128 + n % 64]
  else [240 + n / 262144, 128 + n / 4096 % 64, 128 + n / 64 % 64, 128 + n % 64]

def strBytes (s : String) : List Nat := s.data.flatMap utf8Bytes

/-- Big-endian bytes of `n`, `k` bytes wide. -/
def beBytes (k n : Nat) : List Nat :=
  (List.range k).map fun i => n >>> (8 * (k - 1 - i)) % 256

/-- SHA-1 padding: append `0x80`, zero bytes to 56 mod 64, then the bit
length as 8 big-endian bytes. -/
def sha1pad (msg : List Nat) : List Nat :=
  msg ++ [128] ++ List.replicate ((64 - (msg.length + 9) % 64) % 64) 0 ++
    beBytes 8 (8 * msg.length)

/-- Split into 64-byte blocks. -/
def chunks64 : List Nat → List (List Nat)
  | [] => []
  | c :: rest => ((c :: rest).take 64) :: chunks64 ((c :: rest).drop 64)
termination_by l => l.length
decreasing_by simp [List.length_drop]; omega

/-- One 32-bit word from four big-endian bytes. -/
def wordAt (block : List Nat) (i : Nat) : Nat :=
  block.getD (4 * i) 0 <<< 24 ||| block.getD (4 * i + 1) 0 <<< 16 |||
    block.getD (4 * i + 2) 0 <<< 8 ||| block.getD (4 * i + 3) 0

/-- The 80-word message schedule of one block. -/
def sha1schedule (block : List Nat) : Array Nat :=
  let w0 := (Array.range 16).map (wordAt block)
  (List.range 64).foldl
    (fun w i =>
      let j := i + 16
      w.push (rotl32 1 (w.getD (j - 3) 0 ^^^ w.getD (j - 8) 0 ^^^
        w.getD (j - 14) 0 ^^^ w.getD (j - 16) 0)))
    w0

def sha1f (i b c d : Nat) : Nat :=
  if i < 20 then (b &&& c) ||| (not32 b &&& d)
  else if i < 40 then b ^^^ c ^^^ d
  else if i < 60 then (b &&& c) ||| (b &&& d) ||| (c &&& d)
  else b ^^^ c ^^^ d

def sha1k (i : Nat) : Nat :=
  if i < 20 then 1518500249
  else if i < 40 then 1859775393
  else if i < 60 then 2400959708
  else 3395469782

/-- Compress one block into the running state `(h0, h1, h2, h3, h4)`. -/
def sha1block (h : Nat × Nat × Nat × Nat × Nat) (block : List Nat) :
    Nat × Nat × Nat × Nat × Nat :=
  let w := sha1schedule block
  let (h0, h1, h2, h3, h4) := h
  let (a, b, c, d, e) := (List.range 80).foldl
    (fun st i =>
      let (a, b, c, d, e) := st
      let temp := w32 (rotl32 5 a + sha1f i b c d + e + sha1k i + w.getD i 0)
      (temp, a, rotl32 30 b, c, d))
    (h0, h1, h2, h3, h4)
  (w32 (h0 + a), w32 (h1 + b), w32 (h2 + c), w32 (h3 + d), w32 (h4 + e))

def hexDigitChar (n : Nat) : Char :=
  if n < 10 then Char.ofNat ('0'.toNat + n) else Char.ofNat ('a'.toNat + n - 10)

/-- Lowercase hexadecimal, `k` digits wide, big-endian. -/
def toHex (k n : Nat) : List Char :=
  (List.range k).map fun i => hexDigitChar (n >>> (4 * (k - 1 - i)) % 16)

/-- `hashlib.sha1(msg).hexdigest()` for a byte list. -/
def sha1hexBytes (msg : List Nat) : String :=
  let (h0, h1, h2, h3, h4) := (chunks64 (sha1pad msg)).foldl sha1block
    (1732584193, 4023233417, 2562383102, 271733878, 3285377520)
  ⟨toHex 8 h0 ++ toHex 8 h1 ++ toHex 8 h2 ++ toHex 8 h3 ++ toHex 8 h4⟩

/-- `hashlib.sha1(s.encode()).hexdigest()`. -/
def sha1hex (s : String) : String := sha1hexBytes (strBytes s)

/-! ## Filename Deriver: `UConnFilesPipeline.file_path` (pipelines.py, 34–68) -/

/-- Python `hay.endswith(needle)`. -/
def pyEndsWith (hay needle : String) : Bool :=
  isPrefixB needle.data.reverse hay.data.reverse

/-- The intermediate values `file_path` computes before formatting
`f"{term_code}_{dept}_{number}_{file_id}.{ext}"`. -/
structure FilenameParts where
  termCode : String
  dept : String
  number : String
  fileId : String
  ext : String
deriving DecidableEq, Repr

/--
```python
term_code = (adapter.get("term_code") or "0000").strip()
class_name = (adapter.get("class_name") or "").strip()
parts = class_name.split(None, 1)
dept = re.sub(r"[^\w]", "", parts[0]) if parts else "UNKNOWN"
number = re.sub(r"[^\w]", "", parts[1]) if len(parts) > 1 else "0"
url = request.url
parsed = urlparse(url)
qs = parse_qs(parsed.query)
file_param = qs.get("file", [""])[0]
file_param_decoded = file_param.replace("%7C", "|")
if "|" in file_param_decoded:
    file_id = file_param_decoded.split("|")[0].strip()
else:
    file_id = hashlib.sha1(url.encode()).hexdigest()[:12]
path = parsed.path.lower()
ext = "docx" / "doc" / "pdf"
```
A missing or empty `term_code`/`class_name` field and the Python `or`
defaults coincide in treating the empty string as absent. -/
def filePathParts (url term_code class_name : String) : FilenameParts :=
  let termCode := pyStrip (if term_code.isEmpty then "0000" else term_code)
  let className := pyStrip class_name
  let parts := splitNone1 className.data
  let dept := match parts with
    | p0 :: _ => stripNonWord ⟨p0⟩
    | [] => "UNKNOWN"
  let number := match parts with
    | _ :: p1 :: _ => stripNonWord ⟨p1⟩
    | _ => "0"
  let fileParamDecoded := replace7C (fileParamOf (queryOf url.data))
  let fileId :=
    if fileParamDecoded.any fun c => c = '|' then
      pyStrip ⟨fileParamDecoded.takeWhile fun c => c ≠ '|'⟩
    else
      ⟨(sha1hex url).data.take 12⟩
  let path := pyLower ⟨pathOf url.data⟩
  let ext :=
    if pyEndsWith path ".docx" then "docx"
    else if pyEndsWith path ".doc" then "doc"
    else "pdf"
  ⟨termCode, dept, number, fileId, ext⟩

/-- `file_path`: `f"{term_code}_{dept}_{number}_{file_id}.{ext}"`. -/
def filePath (url term_code class_name : String) : String :=
  let p := filePathParts url term_code class_name
  p.termCode ++ "_" ++ p.dept ++ "_" ++ p.number ++ "_" ++ p.fileId ++ "." ++ p.ext

/-! ## `UConnFilesPipeline.item_completed` (pipelines.py, 70–88) -/

/-- One record of the output item (`UConnSyllabusItem`, items.py). -/
structure SyllabusItem where
  term_name : String
  term_code : String
  class_name : String
  «section» : String
  instructor : String
  syllabus_web_url : String
  syllabus_local_filepath : String
  syllabus_local_filename : String
  file_urls : List String
  files : List String
deriving DecidableEq, Repr

/-- One entry of the `results` list handed to `item_completed`: the success
flag `ok` and (for successes) the result's stored `path`. -/
structure FileResult where
  path : String
deriving DecidableEq, Repr

/-- `os.path.basename` (POSIX): everything after the last `/`. -/
def pyBasename (s : String) : String :=
  ⟨(s.data.reverse.takeWhile fun c => c ≠ '/').reverse⟩

/-- `os.path.join(store, filename)` (POSIX, two arguments). -/
def pyJoin (store filename : String) : String :=
  if isPrefixB "/".data filename.data then filename
  else if store.isEmpty || isPrefixB "/".data store.data.reverse then store ++ filename
  else store ++ "/" ++ filename

/--
```python
downloaded = [r for ok, r in results if ok]
if downloaded:
    rel_path = downloaded[0]["path"]
    filename = os.path.basename(rel_path)
    local_filepath = os.path.join(store, filename)
    adapter["syllabus_local_filepath"] = local_filepath
    adapter["syllabus_local_filename"] = filename
else:
    if not adapter.get("syllabus_local_filepath"):
        adapter["syllabus_local_filepath"] = ""
    if not adapter.get("syllabus_local_filename"):
        adapter["syllabus_local_filename"] = ""
return item
```
-/
def itemCompleted (store : String) (results : List (Bool × FileResult))
    (item : SyllabusItem) : SyllabusItem :=
  let downloaded := (results.filter fun r => r.1).map fun r => r.2
  match downloaded with
  | r :: _ =>
    let filename := pyBasename r.path
    { item with
      syllabus_local_filepath := pyJoin store filename
      syllabus_local_filename := filename }
  | [] =>
    { item with
      syllabus_local_filepath :=
        if item.syllabus_local_filepath.isEmpty then "" else item.syllabus_local_filepath
      syllabus_local_filename :=
        if item.syllabus_local_filename.isEmpty then "" else item.syllabus_local_filename }

/-! ## Row Parser: `_parse_results_table` (uconn_syllabi_spider.py, 83–130) -/

/-- One `<td>` cell: its first text node (`css("::text").get("")`) and the
first anchor's `href` (`css("a::attr(href)").get("")`). -/
structure Cell where
  text : String
  firstHref : String
deriving DecidableEq, Repr

/-- One `<tr>` of the results table: its `<td>` cells. -/
structure RawRow where
  cells : List Cell
deriving DecidableEq, Repr

/-- The results page: the texts of the `<th>` header cells (first text node
of each, `css("::text").get("")`) and the `<tr>` rows. -/
structure ResultsPage where
  thTexts : List String
  rows : List RawRow
deriving DecidableEq, Repr

/-- The intermediate row dict
`{"class_name": ..., "section": ..., "instructor": ..., "href": ...}`. -/
structure TableRow where
  class_name : String
  «section» : String
  instructor : String
  href : String
deriving DecidableEq, Repr

/-- `headers = [th.css("::text").get("").strip().lower() for th in response.css("table th")]`. -/
def headerTexts (page : ResultsPage) : List String :=
  page.thTexts.map fun t => pyLower (pyStrip t)

/--
```python
for row in response.css("table tr"):
    cells = row.css("td")
    if len(cells) <= max(class_col, section_col, instructor_col, syllabi_col):
        continue
    class_name = cells[class_col].css("::text").get("").strip()
    section    = cells[section_col].css("::text").get("").strip()
    instructor = cells[instructor_col].css("::text").get("").strip()
    href = cells[syllabi_col].css("a::attr(href)").get("").strip()
    if not class_name:
        continue
    yield {...}
```
-/
def parseResultsTable (page : ResultsPage) : List TableRow :=
  let headers := headerTexts page
  let cCol := classCol headers
  let sCol := sectionCol headers
  let iCol := instructorCol headers
  let yCol := syllabiCol headers
  page.rows.filterMap fun row =>
    let cells := row.cells
    if cells.length ≤ max (max cCol sCol) (max iCol yCol) then none
    else
      let class_name := pyStrip (cells.getD cCol ⟨"", ""⟩).text
      let sect := pyStrip (cells.getD sCol ⟨"", ""⟩).text
      let instructor := pyStrip (cells.getD iCol ⟨"", ""⟩).text
      let href := pyStrip (cells.getD yCol ⟨"", ""⟩).firstHref
      if class_name.isEmpty then none
      else some ⟨class_name, sect, instructor, href⟩

/-! ## Orchestrator: the per-row body of `parse_term_results`
(uconn_syllabi_spider.py, 189–226) -/

/-- The spider's run-time configuration after `__init__`: `_target_depts` is
`None` or a set of upper-cased codes (an empty set is falsy in the `if
self._target_depts and ...` guard, like `None`), and `_no_download`. The
term filter plays no part in the per-row body. -/
structure SpiderConfig where
  targetDepts : Option (List String)
  noDownload : Bool
deriving DecidableEq, Repr

/-- `if self._target_depts and dept not in self._target_depts: continue` —
the row is dropped exactly when the filter set is truthy (non-`None` and
non-empty) and does not contain the department. -/
def deptDropped (cfg : SpiderConfig) (dept : String) : Bool :=
  match cfg.targetDepts with
  | none => false
  | some depts => !depts.isEmpty && !depts.contains dept

/-- Python `abs_url.replace("|", "%7C")`. -/
def encodePipes (s : String) : String :=
  ⟨s.data.flatMap fun c => if c = '|' then "%7C".data else [c]⟩

/--
```python
class_name = row["class_name"]
dept, _ = _split_class(class_name)
if self._target_depts and dept not in self._target_depts:
    continue
href = row["href"]
if href:
    abs_url = response.urljoin(href)
    abs_url = abs_url.replace("|", "%7C")
else:
    abs_url = ""
item = UConnSyllabusItem(..., syllabus_local_filepath="", syllabus_local_filename="",
                         file_urls=[abs_url] if (abs_url and not self._no_download) else [],
                         files=[])
yield item
```
`urljoinF` stands for the collaborator `response.urljoin` (absolute-URL
resolution against the response's own URL, framework plumbing). -/
def mkRowItem (cfg : SpiderConfig) (urljoinF : String → String)
    (term_name term_code : String) (row : TableRow) : Option SyllabusItem :=
  let dept := (splitClass row.class_name).1
  if deptDropped cfg dept then none
  else
    let absUrl := if row.href.isEmpty then "" else encodePipes (urljoinF row.href)
    some
      { term_name := term_name
        term_code := term_code
        class_name := row.class_name
        «section» := row.«section»
        instructor := row.instructor
        syllabus_web_url := absUrl
        syllabus_local_filepath := ""
        syllabus_local_filename := ""
        file_urls := if !absUrl.isEmpty && !cfg.noDownload then [absUrl] else []
        files := [] }

/-- The whole per-term loop: one optional item per parsed row, in document
order. -/
def parseTermResults (cfg : SpiderConfig) (urljoinF : String → String)
    (term_name term_code : String) (page : ResultsPage) : List SyllabusItem :=
  (parseResultsTable page).filterMap (mkRowItem cfg urljoinF term_name term_code)

/-! ## Auxiliary lemmas -/

theorem dropWhile_eq_self_of_all {p : Char → Bool} {l : List Char}
    (h : ∀ c ∈ l, p c = false) : l.dropWhile p = l := by
  cases l with
  | nil => rfl
  | cons a t => simp [List.dropWhile_cons, h a (List.mem_cons_self a t)]

theorem dropWhile_cons_neg {p : Char → Bool} {a : Char} {t : List Char}
    (h : p a = false) : (a :: t).dropWhile p = a :: t := by
  simp [List.dropWhile_cons, h]

theorem takeWhile_eq_self_of_all {p : Char → Bool} {l : List Char}
    (h : ∀ c ∈ l, p c = true) : l.takeWhile p = l := by
  induction l with
  | nil => rfl
  | cons a t ih =>
    simp [List.takeWhile_cons, h a (List.mem_cons_self a t),
      ih fun c hc => h c (List.mem_cons_of_mem a hc)]

theorem dropWhile_eq_nil_of_all {p : Char → Bool} {l : List Char}
    (h : ∀ c ∈ l, p c = true) : l.dropWhile p = [] := by
  induction l with
  | nil => rfl
  | cons a t ih =>
    simp [List.dropWhile_cons, h a (List.mem_cons_self a t),
      ih fun c hc => h c (List.mem_cons_of_mem a hc)]

theorem takeWhile_append_sep {p : Char → Bool} {x l : List Char} {s : Char}
    (hx : ∀ c ∈ x, p c = true) (hs : p s = false) :
    (x ++ s :: l).takeWhile p = x := by
  induction x with
  | nil => simp [List.takeWhile_cons, hs]
  | cons a t ih =>
    simp [List.takeWhile_cons, hx a (List.mem_cons_self a t),
      ih fun c hc => hx c (List.mem_cons_of_mem a hc)]

theorem dropWhile_append_sep {p : Char → Bool} {x l : List Char} {s : Char}
    (hx : ∀ c ∈ x, p c = true) (hs : p s = false) :
    (x ++ s :: l).dropWhile p = s :: l := by
  induction x with
  | nil => simp [List.dropWhile_cons, hs]
  | cons a t ih =>
    simp [List.dropWhile_cons, hx a (List.mem_cons_self a t),
      ih fun c hc => hx c (List.mem_cons_of_mem a hc)]

/-- `strip` is the identity on a whitespace-free list. -/
theorem stripL_eq_self_of_all {l : List Char}
    (h : ∀ c ∈ l, pyIsSpace c = false) : stripL l = l := by
  unfold stripL lstripL rstripL
  rw [dropWhile_eq_self_of_all h,
    dropWhile_eq_self_of_all fun c hc => h c (List.mem_reverse.mp hc),
    List.reverse_reverse]

/-- `rstrip` is the identity when the last character is not whitespace. -/
theorem rstripL_concat {l : List Char} {c : Char} (h : pyIsSpace c = false) :
    rstripL (l ++ [c]) = l ++ [c] := by
  unfold rstripL
  rw [List.reverse_append, List.reverse_singleton, List.singleton_append,
    dropWhile_cons_neg h, List.reverse_cons, List.reverse_reverse]

theorem exists_concat_of_ne_nil {l : List Char} (h : l ≠ []) :
    ∃ l' b, l = l' ++ [b] := by
  induction l using List.reverseRecOn with
  | nil => exact absurd rfl h
  | append_singleton l' b _ => exact ⟨l', b, rfl⟩

/-- `strip` is the identity on `x ++ ' ' :: y` when `x` and `y` are
non-empty and whitespace-free. -/
theorem stripL_mid {x y : List Char} (hx : x ≠ []) (hxs : ∀ c ∈ x, pyIsSpace c = false)
    (hy : y ≠ []) (hys : ∀ c ∈ y, pyIsSpace c = false) :
    stripL (x ++ ' ' :: y) = x ++ ' ' :: y := by
  obtain ⟨a, t, rfl⟩ := List.exists_cons_of_ne_nil hx
  obtain ⟨u, d, rfl⟩ := exists_concat_of_ne_nil hy
  have hd : pyIsSpace d = false := hys d (by simp)
  have ha : pyIsSpace a = false := hxs a (by simp)
  unfold stripL
  have e1 : lstripL (a :: t ++ ' ' :: (u ++ [d])) = a :: t ++ ' ' :: (u ++ [d]) :=
    dropWhile_cons_neg ha
  have e2 : a :: t ++ ' ' :: (u ++ [d]) = (a :: t ++ ' ' :: u) ++ [d] := by simp
  rw [e1, e2, rstripL_concat hd]

theorem splitNone1_two {x y : List Char} (hx : x ≠ []) (hxs : ∀ c ∈ x, pyIsSpace c = false)
    (hy : y ≠ []) (hys : ∀ c ∈ y, pyIsSpace c = false) :
    splitNone1 (x ++ ' ' :: y) = [x, y] := by
  obtain ⟨a, t, rfl⟩ := List.exists_cons_of_ne_nil hx
  have hsp : pyIsSpace ' ' = true := rfl
  have h1 : (a :: t ++ ' ' :: y).dropWhile pyIsSpace = a :: t ++ ' ' :: y :=
    dropWhile_cons_neg (hxs a (by simp))
  have h2 : (a :: t ++ ' ' :: y).takeWhile (fun c => !pyIsSpace c) = a :: t :=
    takeWhile_append_sep (fun c hc => by simp [hxs c hc]) (by simp [hsp])
  have h3 : (a :: t ++ ' ' :: y).dropWhile (fun c => !pyIsSpace c) = ' ' :: y :=
    dropWhile_append_sep (fun c hc => by simp [hxs c hc]) (by simp [hsp])
  have h4 : (' ' :: y).dropWhile pyIsSpace = y := by
    rw [List.dropWhile_cons, if_pos hsp, dropWhile_eq_self_of_all hys]
  obtain ⟨b, u, rfl⟩ := List.exists_cons_of_ne_nil hy
  simp only [splitNone1, h1, h2, h3, h4, List.isEmpty_cons, Bool.false_eq_true,
    if_false]
  rfl

theorem splitNone1_one {x : List Char} (hx : x ≠ [])
    (hxs : ∀ c ∈ x, pyIsSpace c = false) : splitNone1 x = [x] := by
  obtain ⟨a, t, rfl⟩ := List.exists_cons_of_ne_nil hx
  have h1 : (a :: t).dropWhile pyIsSpace = a :: t :=
    dropWhile_cons_neg (hxs a (by simp))
  have h2 : (a :: t).takeWhile (fun c => !pyIsSpace c) = a :: t :=
    takeWhile_eq_self_of_all fun c hc => by simp [hxs c hc]
  have h3 : (a :: t).dropWhile (fun c => !pyIsSpace c) = [] :=
    dropWhile_eq_nil_of_all fun c hc => by simp [hxs c hc]
  simp only [splitNone1, h1, h2, h3, List.dropWhile_nil, List.isEmpty_nil, if_true]

theorem splitNone1_all_space {l : List Char}
    (h : ∀ c ∈ l, pyIsSpace c = true) : splitNone1 l = [] := by
  unfold splitNone1
  rw [dropWhile_eq_nil_of_all h]

/-- String eta. -/
theorem string_mk_data (s : String) : String.mk s.data = s := rfl

theorem char_toNat_ofNat {n : Nat} (h : n < 55296) : (Char.ofNat n).toNat = n := by
  have hv : Nat.isValidChar n := Or.inl h
  unfold Char.ofNat
  rw [dif_pos hv]
  rfl

theorem charLe_decide (a b : Char) : decide (a ≤ b) = decide (a.toNat ≤ b.toNat) :=
  decide_eq_decide.mpr Iff.rfl

theorem charEq_decide (a b : Char) [Decidable (a = b)] :
    decide (a = b) = decide (a.toNat = b.toNat) :=
  decide_eq_decide.mpr ⟨fun h => by rw [h], fun h => Char.ext (UInt32.ext h)⟩

/-- ASCII upper-casing preserves word-char-ness. -/
theorem isWordChar_pyUpperChar (c : Char) : isWordChar (pyUpperChar c) = isWordChar c := by
  unfold pyUpperChar isWordChar
  have la : 'a'.toNat = 97 := rfl
  have lz : 'z'.toNat = 122 := rfl
  have lA : 'A'.toNat = 65 := rfl
  have lZ : 'Z'.toNat = 90 := rfl
  have l0 : '0'.toNat = 48 := rfl
  have l9 : '9'.toNat = 57 := rfl
  have lu : '_'.toNat = 95 := rfl
  by_cases h : 97 ≤ c.toNat ∧ c.toNat ≤ 122
  · have hcond : ('a' ≤ c && c ≤ 'z') = true := by
      simp only [Bool.and_eq_true, charLe_decide, decide_eq_true_eq, la, lz]
      exact h
    rw [if_pos hcond]
    have ht : (Char.ofNat (c.toNat - 32)).toNat = c.toNat - 32 :=
      char_toNat_ofNat (by omega)
    rw [Bool.eq_iff_iff]
    simp only [Bool.or_eq_true, Bool.and_eq_true, charLe_decide, charEq_decide,
      decide_eq_true_eq, ht, la, lz, lA, lZ, l0, l9, lu]
    omega
  · have hcond : ('a' ≤ c && c ≤ 'z') = false := by
      rw [Bool.eq_false_iff]
      simp only [ne_eq, Bool.and_eq_true, charLe_decide, decide_eq_true_eq, la, lz]
      omega
    rw [if_neg (by simp [hcond])]

/-- `re.sub(r"[^\w]", "", ·)` commutes with `str.upper()`. -/
theorem stripNonWord_pyUpper (s : String) :
    stripNonWord (pyUpper s) = pyUpper (stripNonWord s) := by
  unfold stripNonWord pyUpper
  simp only [List.filter_map, Function.comp_def]
  rw [List.filter_congr fun c _ => isWordChar_pyUpperChar c]

/-! ## The claims -/

/-- C7: For every input string, the Class-Name Splitter returns: for inputs
of the form `X Y` (two whitespace-free tokens around a single space), the
pair `(upper X, Y)`; for a single whitespace-free token `X`, `(upper X, "")`;
and for empty or whitespace-only input, `("", "")`. -/
theorem spec_C7 :
    (∀ x y : String, x ≠ "" → (∀ c ∈ x.data, pyIsSpace c = false) →
        y ≠ "" → (∀ c ∈ y.data, pyIsSpace c = false) →
        splitClass (x ++ " " ++ y) = (pyUpper x, y))
    ∧ (∀ x : String, x ≠ "" → (∀ c ∈ x.data, pyIsSpace c = false) →
        splitClass x = (pyUpper x, ""))
    ∧ (∀ s : String, (∀ c ∈ s.data, pyIsSpace c = true) →
        splitClass s = ("", "")) := by
  refine ⟨fun x y hx hxs hy hys => ?_, fun x hx hxs => ?_, fun s hs => ?_⟩
  · have hxd : x.data ≠ [] := fun h => hx (by cases x; simp_all)
    have hyd : y.data ≠ [] := fun h => hy (by cases y; simp_all)
    have hdata : (x ++ " " ++ y).data = x.data ++ ' ' :: y.data := by
      show (x.data ++ " ".data) ++ y.data = _
      simp
    unfold splitClass
    rw [hdata, stripL_mid hxd hxs hyd hys, splitNone1_two hxd hxs hyd hys]
  · have hxd : x.data ≠ [] := fun h => hx (by cases x; simp_all)
    unfold splitClass
    rw [stripL_eq_self_of_all hxs, splitNone1_one hxd hxs]
  · unfold splitClass
    have h1 : stripL s.data = [] := by
      unfold stripL lstripL rstripL
      rw [dropWhile_eq_nil_of_all hs]
      rfl
    rw [h1, splitNone1_all_space fun c hc => absurd hc (by simp)]

/-- C7 witness: the three clauses at `"CSE"`, `"3666"` and whitespace-only
input. -/
theorem spec_C7_witness :
    splitClass ("CSE" ++ " " ++ "3666") = (pyUpper "CSE", "3666")
    ∧ splitClass "CSE" = (pyUpper "CSE", "")
    ∧ splitClass "  " = ("", "") :=
  ⟨spec_C7.1 "CSE" "3666" (by decide) (by decide) (by decide) (by decide),
   spec_C7.2.1 "CSE" (by decide) (by decide),
   spec_C7.2.2 "  " (by decide)⟩

/-- C6: the Filename Deriver is deterministic — equal inputs give equal
filenames. It is a pure function of `(url, term_code, class_name)`: the
embedding `filePath` reads no other state, mirroring `file_path`, which
derives the name from the request URL and the item fields alone. -/
theorem spec_C6 (url term_code class_name url' term_code' class_name' : String)
    (hu : url = url') (ht : term_code = term_code') (hc : class_name = class_name') :
    filePath url term_code class_name = filePath url' term_code' class_name' := by
  rw [hu, ht, hc]

/-- C6 witness at a concrete invocation pair. -/
theorem spec_C6_witness :
    filePath "https://syllabus.uconn.edu/public/download.php?file=10|abc" "1258" "CSE 3666"
      = filePath "https://syllabus.uconn.edu/public/download.php?file=10|abc" "1258" "CSE 3666" :=
  spec_C6 _ "1258" "CSE 3666" _ "1258" "CSE 3666" rfl rfl rfl

/-- C2 counterexample: `col_index` scans CANDIDATES in priority order, not
headers. For the syllabus-link column (candidates `["syllabi", "syllabus"]`)
and headers `["syllabus", "syllabi"]`, the first header (index 0) contains
the candidate `"syllabus"`, so the claim prescribes 0; the code finds the
earlier candidate `"syllabi"` in header 1 first and returns 1. -/
theorem spec_C2_counterexample :
    colIndex ["syllabi", "syllabus"] ["syllabus", "syllabi"] 4 = 1
    ∧ colIndexSpec ["syllabi", "syllabus"] ["syllabus", "syllabi"] 4 = 0
    ∧ colIndex ["syllabi", "syllabus"] ["syllabus", "syllabi"] 4
        ≠ colIndexSpec ["syllabi", "syllabus"] ["syllabus", "syllabi"] 4 := by
  refine ⟨?_, ?_, ?_⟩ <;> decide

/-- The Column Resolver as amended: candidate substrings are scanned in
priority order; the first candidate contained in some header wins, and the
resolver returns the lowest index of a header containing THAT candidate; the
positional default when no header contains any candidate. -/
def colIndexAmended (names : List String) (headers : List String) (dflt : Nat) : Nat :=
  match names.find? (fun name => headers.any fun h => pyContains h name) with
  | some name => (headers.findIdx? fun h => pyContains h name).getD dflt
  | none => dflt

/-- C2 (amended): `col_index` returns the lowest header index containing the
highest-priority candidate present in any header, the positional default when
no header contains any candidate, and in particular the defaults
class→1, section→2, instructor→3, syllabus-link→4 on an empty header list. -/
theorem spec_C2 :
    (∀ (names headers : List String) (dflt : Nat),
        colIndex names headers dflt = colIndexAmended names headers dflt)
    ∧ (∀ (names : List String) (dflt : Nat), colIndex names [] dflt = dflt)
    ∧ classCol [] = 1 ∧ sectionCol [] = 2 ∧ instructorCol [] = 3 ∧ syllabiCol [] = 4 := by
  have key : ∀ (names headers : List String) (dflt : Nat),
      colIndex names headers dflt = colIndexAmended names headers dflt := by
    intro names headers dflt
    induction names with
    | nil => rfl
    | cons name rest ih =>
      unfold colIndex colIndexAmended
      cases hidx : headers.findIdx? fun h => pyContains h name with
      | some i =>
        have hany : headers.any (fun h => pyContains h name) = true := by
          rw [← List.findIdx?_isSome, hidx]
          rfl
        rw [List.find?_cons_of_pos (p := fun n => headers.any fun h => pyContains h n)
          rest hany]
        show i = (List.findIdx? (fun h => pyContains h name) headers).getD dflt
        rw [hidx]
        rfl
      | none =>
        have hany : headers.any (fun h => pyContains h name) = false := by
          rw [← List.findIdx?_isSome, hidx]
          rfl
        rw [List.find?_cons_of_neg (p := fun n => headers.any fun h => pyContains h n)
          rest (by simp [hany])]
        exact ih
  refine ⟨key, fun names dflt => ?_, rfl, rfl, rfl, rfl⟩
  rw [key]
  unfold colIndexAmended
  cases h : names.find? fun name => List.any [] (fun h => pyContains h name) with
  | none => rfl
  | some name =>
    have := List.find?_some h
    simp at this

/-- C1 counterexample: the first selector yields one option whose value
`"x"` is not a digit string. The claim prescribes the empty list (later
selectors not consulted); the code falls through to the second selector and
returns its digit-valued option. -/
theorem spec_C1_counterexample :
    extractTermOptions ⟨[⟨some "x", some "Pick a term"⟩], [⟨some "12", some "Fall"⟩], []⟩
        = [("12", "Fall")]
    ∧ extractTermOptionsSpec ⟨[⟨some "x", some "Pick a term"⟩], [⟨some "12", some "Fall"⟩], []⟩
        = []
    ∧ extractTermOptions ⟨[⟨some "x", some "Pick a term"⟩], [⟨some "12", some "Fall"⟩], []⟩
        ≠ extractTermOptionsSpec ⟨[⟨some "x", some "Pick a term"⟩], [⟨some "12", some "Fall"⟩], []⟩ := by
  refine ⟨?_, ?_, ?_⟩ <;> decide

/-- C1 (amended): Term Discovery returns the digit-filtered options of the
first selector whose digit-filtered option list is non-empty (a selector all
of whose options have non-digit values is skipped and later selectors ARE
consulted); each kept pair is the trimmed value and trimmed label, in
document order; the result is empty only when every selector's digit-filtered
list is empty. -/
theorem spec_C1 :
    (∀ r : TermListResponse,
        extractTermOptions r
          = (([r.selNamed, r.selId, r.selForm].map digitOptions).find? fun l =>
              !l.isEmpty).getD [])
    ∧ (∀ options : List HtmlOption,
        digitOptions options
          = (options.filter fun opt => pyIsDigit (pyStrip (opt.value.getD ""))).map
              fun opt => (pyStrip (opt.value.getD ""), pyStrip (opt.text.getD ""))) := by
  constructor
  · have key : ∀ sels : List (List HtmlOption),
        extractFromSelectors sels
          = ((sels.map digitOptions).find? fun l => !l.isEmpty).getD [] := by
      intro sels
      induction sels with
      | nil => rfl
      | cons options rest ih =>
        unfold extractFromSelectors
        by_cases hempty : options.isEmpty
        · have hdig : digitOptions options = [] := by
            rw [List.isEmpty_iff] at hempty
            rw [hempty]
            rfl
          rw [if_pos hempty, ih]
          simp only [List.map_cons, hdig]
          rw [List.find?_cons_of_neg _ (by simp)]
        · rw [if_neg hempty]
          by_cases hres : (digitOptions options).isEmpty
          · rw [if_pos hres, ih]
            simp only [List.map_cons]
            rw [List.find?_cons_of_neg _ (by simp [List.isEmpty_iff.mp hres])]
          · rw [if_neg hres]
            simp only [List.map_cons]
            rw [List.find?_cons_of_pos _ (by simp [hres])]
            rfl
    exact fun r => key [r.selNamed, r.selId, r.selForm]
  · intro options
    induction options with
    | nil => rfl
    | cons opt rest ih =>
      by_cases h : pyIsDigit (pyStrip (opt.value.getD ""))
      · rw [show digitOptions (opt :: rest)
            = (pyStrip (opt.value.getD ""), pyStrip (opt.text.getD "")) :: digitOptions rest by
            simp only [digitOptions, List.filterMap_cons, if_pos h]]
        rw [List.filter_cons_of_pos
          (p := fun o : HtmlOption => pyIsDigit (pyStrip (o.value.getD ""))) h,
          List.map_cons, ih]
      · rw [show digitOptions (opt :: rest) = digitOptions rest by
            simp only [digitOptions, List.filterMap_cons, if_neg h]]
        rw [List.filter_cons_of_neg
          (p := fun o : HtmlOption => pyIsDigit (pyStrip (o.value.getD ""))) h, ih]

theorem pyStrip_data (s : String) : (pyStrip s).data = stripL s.data := rfl

theorem dropWhile_cons_head {p : Char → Bool} {a : Char} {t : List Char}
    (h : (a :: t).dropWhile p = a :: t) : p a = false := by
  have := List.dropWhile_eq_self_iff.mp h (by simp)
  simpa using this

theorem rstripL_prefix (m : List Char) : rstripL m <+: m := by
  unfold rstripL
  rw [show m = m.reverse.reverse from (List.reverse_reverse m).symm]
  rw [List.reverse_prefix]
  simpa using List.dropWhile_suffix pyIsSpace

theorem dropWhile_head_false {p : Char → Bool} {a : Char} {t l : List Char}
    (h : l.dropWhile p = a :: t) : p a = false := by
  induction l with
  | nil => simp at h
  | cons b u ih =>
    rw [List.dropWhile_cons] at h
    by_cases hb : p b
    · rw [if_pos hb] at h
      exact ih h
    · rw [if_neg hb] at h
      cases h
      simpa using hb

theorem dropWhile_idem (p : Char → Bool) (l : List Char) :
    (l.dropWhile p).dropWhile p = l.dropWhile p := by
  cases h : l.dropWhile p with
  | nil => rfl
  | cons a t => exact dropWhile_cons_neg (dropWhile_head_false h)

/-- After a full `strip`, another `lstrip` is a no-op. -/
theorem lstripL_stripL (l : List Char) : lstripL (stripL l) = stripL l := by
  unfold stripL
  cases hm : rstripL (lstripL l) with
  | nil => rfl
  | cons a d =>
    have hpre : a :: d <+: lstripL l := hm ▸ rstripL_prefix (lstripL l)
    obtain ⟨t, ht⟩ := hpre
    have hl : lstripL (lstripL l) = lstripL l := dropWhile_idem pyIsSpace l
    have hm2 : lstripL l = a :: (d ++ t) := by
      rw [← ht]
      rfl
    have ha : pyIsSpace a = false := by
      have h2 := hl
      rw [hm2] at h2
      exact dropWhile_cons_head h2
    exact dropWhile_cons_neg ha

/-- `splitNone1` of a stripped, non-empty list is non-empty. -/
theorem splitNone1_stripL_ne_nil {l : List Char} (h : stripL l ≠ []) :
    splitNone1 (stripL l) ≠ [] := by
  obtain ⟨a, t, hat⟩ := List.exists_cons_of_ne_nil h
  intro hcontra
  unfold splitNone1 at hcontra
  rw [show (stripL l).dropWhile pyIsSpace = stripL l from lstripL_stripL l, hat] at hcontra
  by_cases hrest : (((a :: t).dropWhile fun c => !pyIsSpace c).dropWhile pyIsSpace).isEmpty
    <;> simp_all

/-- The possible shapes of a `split(None, 1)` result. -/
theorem splitNone1_shape (l : List Char) :
    splitNone1 l = [] ∨ (∃ t, splitNone1 l = [t]) ∨ ∃ t r, splitNone1 l = [t, r] := by
  unfold splitNone1
  cases hs : l.dropWhile pyIsSpace with
  | nil => exact Or.inl rfl
  | cons a u =>
    by_cases hrest : (((a :: u).dropWhile fun c => !pyIsSpace c).dropWhile pyIsSpace).isEmpty
    · exact Or.inr (Or.inl ⟨(a :: u).takeWhile fun c => !pyIsSpace c, by simp [hrest]⟩)
    · exact Or.inr (Or.inr ⟨(a :: u).takeWhile fun c => !pyIsSpace c,
        ((a :: u).dropWhile fun c => !pyIsSpace c).dropWhile pyIsSpace, by simp [hrest]⟩)

theorem char_le_iff {a b : Char} : a ≤ b ↔ a.toNat ≤ b.toNat := Iff.rfl

/-- C3 counterexample: `file_path` does NOT upper-case the department (unlike
`_split_class`): for `class_name = "cse 3666"` the filename's dept component
is `"cse"`, while the Class-Name Splitter's department, stripped of non-word
characters, is `"CSE"`. -/
theorem spec_C3_counterexample :
    (filePathParts "https://syllabus.uconn.edu/public/download.php?file=10|abc"
        "1258" "cse 3666").dept = "cse"
    ∧ stripNonWord ((splitClass "cse 3666").1) = "CSE"
    ∧ (filePathParts "https://syllabus.uconn.edu/public/download.php?file=10|abc"
        "1258" "cse 3666").dept ≠ stripNonWord ((splitClass "cse 3666").1) := by
  refine ⟨?_, ?_, ?_⟩ <;> decide

/-- C3 (amended): for every class_name with a non-whitespace character, the
dept component of the Filename Deriver equals the first token of the
first-whitespace-run split with all non-word characters stripped — i.e. the
Class-Name Splitter's department WITHOUT its upper-casing; equivalently,
upper-casing the dept component gives the Splitter's department with non-word
characters stripped. dept is `"UNKNOWN"` when class_name is empty or
whitespace-only, and number is `"0"` when there is no second token. -/
theorem spec_C3 (url term_code class_name : String) :
    (stripL class_name.data ≠ [] →
        pyUpper ((filePathParts url term_code class_name).dept)
          = stripNonWord ((splitClass class_name).1))
    ∧ (stripL class_name.data = [] →
        (filePathParts url term_code class_name).dept = "UNKNOWN")
    ∧ ((splitNone1 (stripL class_name.data)).length ≤ 1 →
        (filePathParts url term_code class_name).number = "0") := by
  have edept : (filePathParts url term_code class_name).dept
      = match splitNone1 (stripL class_name.data) with
        | p0 :: _ => stripNonWord ⟨p0⟩
        | [] => "UNKNOWN" := rfl
  have enum : (filePathParts url term_code class_name).number
      = match splitNone1 (stripL class_name.data) with
        | _ :: p1 :: _ => stripNonWord ⟨p1⟩
        | _ => "0" := rfl
  have esplit : splitClass class_name
      = match splitNone1 (stripL class_name.data) with
        | [p0, p1] => (pyUpper ⟨p0⟩, (⟨p1⟩ : String))
        | [p0] => (pyUpper ⟨p0⟩, "")
        | _ => ("", "") := rfl
  refine ⟨fun h => ?_, fun h => ?_, fun h => ?_⟩
  · have hne := splitNone1_stripL_ne_nil h
    rcases splitNone1_shape (stripL class_name.data) with h0 | ⟨t, h1⟩ | ⟨t, r, h2⟩
    · exact absurd h0 hne
    · rw [edept, esplit, h1]
      exact (stripNonWord_pyUpper ⟨t⟩).symm
    · rw [edept, esplit, h2]
      exact (stripNonWord_pyUpper ⟨t⟩).symm
  · have h0 : splitNone1 (stripL class_name.data) = [] := by
      rw [h]
      rfl
    rw [edept, h0]
  · rcases splitNone1_shape (stripL class_name.data) with h0 | ⟨t, h1⟩ | ⟨t, r, h2⟩
    · rw [enum, h0]
    · rw [enum, h1]
    · rw [h2] at h
      simp at h

/-- C3 witness: the amended clauses at concrete inputs. -/
theorem spec_C3_witness :
    pyUpper ((filePathParts "https://syllabus.uconn.edu/public/download.php?file=10|abc"
        "1258" "cse 3666").dept) = stripNonWord ((splitClass "cse 3666").1)
    ∧ (filePathParts "https://syllabus.uconn.edu/public/download.php?file=10|abc"
        "1258" "  ").dept = "UNKNOWN"
    ∧ (filePathParts "https://syllabus.uconn.edu/public/download.php?file=10|abc"
        "1258" "CSE").number = "0" :=
  ⟨(spec_C3 "https://syllabus.uconn.edu/public/download.php?file=10|abc"
      "1258" "cse 3666").1 (by decide),
   (spec_C3 "https://syllabus.uconn.edu/public/download.php?file=10|abc"
      "1258" "  ").2.1 (by decide),
   (spec_C3 "https://syllabus.uconn.edu/public/download.php?file=10|abc"
      "1258" "CSE").2.2 (by decide)⟩

/-- C4: when the `file` query parameter, after decoding `%7C` to `|`,
contains a pipe, the file identifier is the trimmed substring before the
first pipe; in particular `file=123|abc` and `file=123%7Cabc` both yield
`"123"` (the literal-pipe form is decoded by `parse_qs` itself, the encoded
form by the explicit `.replace("%7C", "|")`). -/
theorem spec_C4 :
    (∀ url term_code class_name : String,
        '|' ∈ replace7C (fileParamOf (queryOf url.data)) →
        (filePathParts url term_code class_name).fileId
          = pyStrip ⟨(replace7C (fileParamOf (queryOf url.data))).takeWhile
              fun c => c ≠ '|'⟩)
    ∧ (∀ term_code class_name : String,
        (filePathParts "https://syllabus.uconn.edu/public/download.php?file=123|abc"
          term_code class_name).fileId = "123")
    ∧ (∀ term_code class_name : String,
        (filePathParts "https://syllabus.uconn.edu/public/download.php?file=123%7Cabc"
          term_code class_name).fileId = "123") := by
  have e : ∀ url term_code class_name : String,
      (filePathParts url term_code class_name).fileId
        = if (replace7C (fileParamOf (queryOf url.data))).any (fun c => c = '|') then
            pyStrip ⟨(replace7C (fileParamOf (queryOf url.data))).takeWhile fun c => c ≠ '|'⟩
          else ⟨(sha1hex url).data.take 12⟩ := fun _ _ _ => rfl
  refine ⟨fun url term_code class_name h => ?_, fun term_code class_name => ?_,
    fun term_code class_name => ?_⟩
  · rw [e, if_pos (List.any_eq_true.mpr ⟨'|', h, by simp⟩)]
  · rw [e]
    decide
  · rw [e]
    decide

/-- C4 witness: the pipe branch applied at `file=123|abc`. -/
theorem spec_C4_witness :
    (filePathParts "https://syllabus.uconn.edu/public/download.php?file=123|abc"
        "1258" "CSE 3666").fileId
      = pyStrip ⟨(replace7C (fileParamOf
          (queryOf "https://syllabus.uconn.edu/public/download.php?file=123|abc".data))).takeWhile
          fun c => c ≠ '|'⟩ :=
  spec_C4.1 "https://syllabus.uconn.edu/public/download.php?file=123|abc"
    "1258" "CSE 3666" (by decide)

theorem toHex_length (k n : Nat) : (toHex k n).length = k := by
  simp [toHex]

theorem toHex_hex {k n : Nat} : ∀ c ∈ toHex k n,
    ('0' ≤ c ∧ c ≤ '9') ∨ ('a' ≤ c ∧ c ≤ 'f') := by
  intro c hc
  simp only [toHex, List.mem_map, List.mem_range] at hc
  obtain ⟨i, _, rfl⟩ := hc
  set m := n >>> (4 * (k - 1 - i)) % 16 with hm
  have hm16 : m < 16 := Nat.mod_lt _ (by omega)
  unfold hexDigitChar
  have l0 : '0'.toNat = 48 := rfl
  have l9 : '9'.toNat = 57 := rfl
  have la : 'a'.toNat = 97 := rfl
  have lf : 'f'.toNat = 102 := rfl
  by_cases h10 : m < 10
  · rw [if_pos h10, l0]
    have ht : (Char.ofNat (48 + m)).toNat = 48 + m := char_toNat_ofNat (by omega)
    left
    simp only [char_le_iff, ht, l0, l9]
    omega
  · rw [if_neg h10, la]
    have ht : (Char.ofNat (97 + m - 10)).toNat = 97 + m - 10 := char_toNat_ofNat (by omega)
    right
    simp only [char_le_iff, ht, la, lf]
    omega

theorem sha1hex_length (s : String) : (sha1hex s).data.length = 40 := by
  unfold sha1hex sha1hexBytes
  obtain ⟨h0, h1, h2, h3, h4⟩ :=
    (chunks64 (sha1pad (strBytes s))).foldl sha1block
      (1732584193, 4023233417, 2562383102, 271733878, 3285377520)
  simp [List.length_append, toHex_length]

theorem sha1hex_all_hex (s : String) : ∀ c ∈ (sha1hex s).data,
    ('0' ≤ c ∧ c ≤ '9') ∨ ('a' ≤ c ∧ c ≤ 'f') := by
  unfold sha1hex sha1hexBytes
  obtain ⟨h0, h1, h2, h3, h4⟩ :=
    (chunks64 (sha1pad (strBytes s))).foldl sha1block
      (1732584193, 4023233417, 2562383102, 271733878, 3285377520)
  intro c hc
  simp only [List.mem_append] at hc
  rcases hc with ((((hc | hc) | hc) | hc) | hc) <;> exact toHex_hex c hc

/-- C5: when the query string has no `file` parameter (the parameter then
defaults to the empty string) or the parameter contains no pipe after
decoding `%7C`, the file identifier is the first 12 characters of the SHA-1
digest of the full URL — a 40-character lowercase-hexadecimal string. -/
theorem spec_C5 (url term_code class_name : String)
    (h : fileParamOf (queryOf url.data) = []
      ∨ '|' ∉ replace7C (fileParamOf (queryOf url.data))) :
    ((filePathParts url term_code class_name).fileId).data = (sha1hex url).data.take 12
    ∧ (sha1hex url).data.length = 40
    ∧ ∀ c ∈ (sha1hex url).data, ('0' ≤ c ∧ c ≤ '9') ∨ ('a' ≤ c ∧ c ≤ 'f') := by
  have hnopipe : '|' ∉ replace7C (fileParamOf (queryOf url.data)) := by
    rcases h with h0 | h0
    · rw [h0]
      simp [replace7C]
    · exact h0
  have hcond : (replace7C (fileParamOf (queryOf url.data))).any (fun c => c = '|') = false := by
    rw [List.any_eq_false]
    intro x hx
    simp only [decide_eq_true_eq]
    rintro rfl
    exact hnopipe hx
  have e : (filePathParts url term_code class_name).fileId
      = if (replace7C (fileParamOf (queryOf url.data))).any (fun c => c = '|') then
          pyStrip ⟨(replace7C (fileParamOf (queryOf url.data))).takeWhile fun c => c ≠ '|'⟩
        else ⟨(sha1hex url).data.take 12⟩ := rfl
  refine ⟨?_, sha1hex_length url, sha1hex_all_hex url⟩
  rw [e, if_neg (by simp [hcond])]

/-- C5 witness: the fallback branch applied to a download URL without a
query string. -/
theorem spec_C5_witness :
    ((filePathParts "https://syllabus.uconn.edu/public/download.php"
        "1258" "CSE 3666").fileId).data
      = (sha1hex "https://syllabus.uconn.edu/public/download.php").data.take 12
    ∧ (sha1hex "https://syllabus.uconn.edu/public/download.php").data.length = 40
    ∧ ∀ c ∈ (sha1hex "https://syllabus.uconn.edu/public/download.php").data,
        ('0' ≤ c ∧ c ≤ '9') ∨ ('a' ≤ c ∧ c ≤ 'f') :=
  spec_C5 "https://syllabus.uconn.edu/public/download.php" "1258" "CSE 3666"
    (Or.inl (by decide))

/-- C8: the Row Parser emits exactly one TableRow per table row whose cell
count exceeds the maximum resolved column index and whose (trimmed)
class-name cell text is non-empty, in document order; all other rows are
skipped. Stated as: the parse equals the filter of qualifying rows mapped
through the cell extraction. -/
theorem spec_C8 (page : ResultsPage) :
    parseResultsTable page
      = ((page.rows.filter fun row =>
            decide (max (max (classCol (headerTexts page)) (sectionCol (headerTexts page)))
                (max (instructorCol (headerTexts page)) (syllabiCol (headerTexts page)))
              < row.cells.length)
            && !(pyStrip (row.cells.getD (classCol (headerTexts page)) ⟨"", ""⟩).text).isEmpty).map
          fun row =>
            ⟨pyStrip (row.cells.getD (classCol (headerTexts page)) ⟨"", ""⟩).text,
             pyStrip (row.cells.getD (sectionCol (headerTexts page)) ⟨"", ""⟩).text,
             pyStrip (row.cells.getD (instructorCol (headerTexts page)) ⟨"", ""⟩).text,
             pyStrip (row.cells.getD (syllabiCol (headerTexts page)) ⟨"", ""⟩).firstHref⟩) := by
  have key : ∀ (cCol sCol iCol yCol : Nat) (rows : List RawRow),
      (rows.filterMap fun row =>
        if row.cells.length ≤ max (max cCol sCol) (max iCol yCol) then none
        else if (pyStrip (row.cells.getD cCol ⟨"", ""⟩).text).isEmpty then none
        else some (⟨pyStrip (row.cells.getD cCol ⟨"", ""⟩).text,
          pyStrip (row.cells.getD sCol ⟨"", ""⟩).text,
          pyStrip (row.cells.getD iCol ⟨"", ""⟩).text,
          pyStrip (row.cells.getD yCol ⟨"", ""⟩).firstHref⟩ : TableRow))
      = ((rows.filter fun row =>
            decide (max (max cCol sCol) (max iCol yCol) < row.cells.length)
            && !(pyStrip (row.cells.getD cCol ⟨"", ""⟩).text).isEmpty).map
          fun row =>
            ⟨pyStrip (row.cells.getD cCol ⟨"", ""⟩).text,
             pyStrip (row.cells.getD sCol ⟨"", ""⟩).text,
             pyStrip (row.cells.getD iCol ⟨"", ""⟩).text,
             pyStrip (row.cells.getD yCol ⟨"", ""⟩).firstHref⟩) := by
    intro cCol sCol iCol yCol rows
    induction rows with
    | nil => rfl
    | cons row rest ih =>
      by_cases hlen : row.cells.length ≤ max (max cCol sCol) (max iCol yCol)
      · rw [List.filterMap_cons_none (by rw [if_pos hlen]),
          List.filter_cons_of_neg (by
            rw [decide_eq_false (by omega : ¬ max (max cCol sCol) (max iCol yCol)
              < row.cells.length)]
            simp), ih]
      · by_cases hcls : (pyStrip (row.cells.getD cCol ⟨"", ""⟩).text).isEmpty
        · rw [List.filterMap_cons_none (by rw [if_neg hlen, if_pos hcls]),
            List.filter_cons_of_neg (by rw [hcls]; simp), ih]
        · have hcf : (pyStrip (row.cells.getD cCol ⟨"", ""⟩).text).isEmpty = false :=
            eq_false_of_ne_true hcls
          rw [List.filterMap_cons_some (by rw [if_neg hlen, if_neg hcls]),
            List.filter_cons_of_pos (by
              rw [hcf, decide_eq_true (by omega : max (max cCol sCol) (max iCol yCol)
                < row.cells.length)]
              rfl), List.map_cons, ih]
  exact key (classCol (headerTexts page)) (sectionCol (headerTexts page))
    (instructorCol (headerTexts page)) (syllabiCol (headerTexts page)) page.rows

theorem string_ne_empty_iff (s : String) : s ≠ "" ↔ s.data ≠ [] := by
  constructor
  · intro h hd
    apply h
    cases s
    cases hd
    rfl
  · intro h he
    apply h
    rw [he]

/-- The extension computed by `file_path` is one of the three literals. -/
theorem filePathParts_ext (url term_code class_name : String) :
    (filePathParts url term_code class_name).ext = "pdf"
    ∨ (filePathParts url term_code class_name).ext = "doc"
    ∨ (filePathParts url term_code class_name).ext = "docx" := by
  have e : (filePathParts url term_code class_name).ext
      = if pyEndsWith (pyLower ⟨pathOf url.data⟩) ".docx" then "docx"
        else if pyEndsWith (pyLower ⟨pathOf url.data⟩) ".doc" then "doc"
        else "pdf" := rfl
  rw [e]
  by_cases h1 : pyEndsWith (pyLower ⟨pathOf url.data⟩) ".docx"
  · rw [if_pos h1]
    exact Or.inr (Or.inr rfl)
  · rw [if_neg h1]
    by_cases h2 : pyEndsWith (pyLower ⟨pathOf url.data⟩) ".doc"
    · rw [if_pos h2]
      exact Or.inr (Or.inl rfl)
    · rw [if_neg h2]
      exact Or.inl rfl

/-- A string ending in a non-slash character has a non-empty basename. -/
theorem pyBasename_end {s : String} {l : List Char} {c : Char}
    (hdata : s.data = l ++ [c]) (hc : (c = '/') = false) : pyBasename s ≠ "" := by
  rw [string_ne_empty_iff]
  show (s.data.reverse.takeWhile fun d => d ≠ '/').reverse ≠ []
  rw [hdata, List.reverse_append, List.reverse_singleton, List.singleton_append,
    List.takeWhile_cons, if_pos (by simpa using hc)]
  simp

/-- The filename produced by `file_path` always has a non-empty basename
(it ends with `pdf`, `doc` or `docx`). -/
theorem pyBasename_filePath_ne (url term_code class_name : String) :
    pyBasename (filePath url term_code class_name) ≠ "" := by
  have e : filePath url term_code class_name
      = ((filePathParts url term_code class_name).termCode ++ "_"
          ++ (filePathParts url term_code class_name).dept ++ "_"
          ++ (filePathParts url term_code class_name).number ++ "_"
          ++ (filePathParts url term_code class_name).fileId ++ ".")
        ++ (filePathParts url term_code class_name).ext := rfl
  rcases filePathParts_ext url term_code class_name with h | h | h
  · refine pyBasename_end (l :=
      ((filePathParts url term_code class_name).termCode ++ "_"
        ++ (filePathParts url term_code class_name).dept ++ "_"
        ++ (filePathParts url term_code class_name).number ++ "_"
        ++ (filePathParts url term_code class_name).fileId ++ ".").data ++ ['p', 'd'])
      (c := 'f') ?_ (by decide)
    rw [e, h, List.append_assoc]
    rfl
  · refine pyBasename_end (l :=
      ((filePathParts url term_code class_name).termCode ++ "_"
        ++ (filePathParts url term_code class_name).dept ++ "_"
        ++ (filePathParts url term_code class_name).number ++ "_"
        ++ (filePathParts url term_code class_name).fileId ++ ".").data ++ ['d', 'o'])
      (c := 'c') ?_ (by decide)
    rw [e, h, List.append_assoc]
    rfl
  · refine pyBasename_end (l :=
      ((filePathParts url term_code class_name).termCode ++ "_"
        ++ (filePathParts url term_code class_name).dept ++ "_"
        ++ (filePathParts url term_code class_name).number ++ "_"
        ++ (filePathParts url term_code class_name).fileId ++ ".").data ++ ['d', 'o', 'c'])
      (c := 'x') ?_ (by decide)
    rw [e, h, List.append_assoc]
    rfl

/-- `os.path.join` with a non-empty filename is non-empty. -/
theorem pyJoin_ne {store filename : String} (h : filename ≠ "") :
    pyJoin store filename ≠ "" := by
  unfold pyJoin
  by_cases h1 : isPrefixB "/".data filename.data
  · rwa [if_pos h1]
  · rw [if_neg h1]
    by_cases h2 : store.isEmpty || isPrefixB "/".data store.data.reverse
    · rw [if_pos h2, string_ne_empty_iff]
      show store.data ++ filename.data ≠ []
      intro hcontra
      exact (string_ne_empty_iff filename).mp h (List.append_eq_nil.mp hcontra).2
    · rw [if_neg h2, string_ne_empty_iff]
      show (store.data ++ "/".data) ++ filename.data ≠ []
      intro hcontra
      exact (string_ne_empty_iff filename).mp h (List.append_eq_nil.mp hcontra).2

/-- C9: the two local-path fields are created empty, are still both empty (and
every other field untouched — the record is emitted with its metadata) when no
download succeeded, and become non-empty — both together — exactly when some
result in the `results` list is a success (whose stored path is a `file_path`
output). In no-download mode `results` is empty, the second case. -/
theorem spec_C9 :
    (∀ (cfg : SpiderConfig) (f : String → String) (tn tc : String) (row : TableRow)
        (it : SyllabusItem), mkRowItem cfg f tn tc row = some it →
        it.syllabus_local_filepath = "" ∧ it.syllabus_local_filename = "")
    ∧ (∀ (store : String) (results : List (Bool × FileResult)) (item : SyllabusItem),
        item.syllabus_local_filepath = "" → item.syllabus_local_filename = "" →
        (∀ r ∈ results, r.1 = true → ∃ u t c, r.2.path = filePath u t c) →
        ((itemCompleted store results item).syllabus_local_filepath = ""
            ∧ (itemCompleted store results item).syllabus_local_filename = ""
          ∨ (itemCompleted store results item).syllabus_local_filepath ≠ ""
            ∧ (itemCompleted store results item).syllabus_local_filename ≠ "")
        ∧ ((∀ r ∈ results, r.1 = false) → itemCompleted store results item = item)
        ∧ ((itemCompleted store results item).syllabus_local_filename ≠ "" →
            ∃ r ∈ results, r.1 = true)
        ∧ ((∃ r ∈ results, r.1 = true) →
            (itemCompleted store results item).syllabus_local_filepath ≠ ""
            ∧ (itemCompleted store results item).syllabus_local_filename ≠ "")) := by
  constructor
  · intro cfg f tn tc row it h
    unfold mkRowItem at h
    by_cases hd : deptDropped cfg (splitClass row.class_name).1
    · rw [if_pos hd] at h
      cases h
    · rw [if_neg hd] at h
      cases h
      exact ⟨rfl, rfl⟩
  · intro store results item hfp hfn hpaths
    cases hfilter : results.filter fun r => r.1 with
    | nil =>
      have e : itemCompleted store results item = item := by
        unfold itemCompleted
        rw [hfilter]
        rw [hfp, hfn]
        cases item
        simp_all
      refine ⟨Or.inl (by rw [e]; exact ⟨hfp, hfn⟩), fun _ => e, fun hl => ?_, fun hs => ?_⟩
      · rw [e, hfn] at hl
        exact absurd rfl hl
      · obtain ⟨r, hr, hr1⟩ := hs
        have : r ∈ results.filter fun r => r.1 := List.mem_filter.mpr ⟨hr, hr1⟩
        rw [hfilter] at this
        cases this
    | cons r rest =>
      have hrmem : r ∈ results.filter fun r => r.1 := by
        rw [hfilter]
        exact List.mem_cons_self r rest
      have hr : r ∈ results := (List.mem_filter.mp hrmem).1
      have hr1 : r.1 = true := (List.mem_filter.mp hrmem).2
      obtain ⟨u, t, c, hpath⟩ := hpaths r hr hr1
      have e : itemCompleted store results item
          = { item with
              syllabus_local_filepath := pyJoin store (pyBasename r.2.path)
              syllabus_local_filename := pyBasename r.2.path } := by
        unfold itemCompleted
        rw [hfilter]
        rfl
      have hbn : pyBasename r.2.path ≠ "" := by
        rw [hpath]
        exact pyBasename_filePath_ne u t c
      have hjn : pyJoin store (pyBasename r.2.path) ≠ "" := pyJoin_ne hbn
      refine ⟨Or.inr ⟨by rw [e]; exact hjn, by rw [e]; exact hbn⟩, fun hfail => ?_,
        fun _ => ⟨r, hr, hr1⟩, fun _ => ⟨by rw [e]; exact hjn, by rw [e]; exact hbn⟩⟩
      exact absurd hr1 (by simp [hfail r hr])

/-- C9 witness: a freshly-built record has both fields empty; completing it
with a single failed result leaves it unchanged. -/
theorem spec_C9_witness :
    ((⟨"Fall 2025", "1258", "CSE 3666", "001", "Zhijie Shi", "h", "", "", ["h"], []⟩
        : SyllabusItem).syllabus_local_filepath = ""
      ∧ (⟨"Fall 2025", "1258", "CSE 3666", "001", "Zhijie Shi", "h", "", "", ["h"], []⟩
        : SyllabusItem).syllabus_local_filename = "")
    ∧ itemCompleted "syllabi_downloads" [(false, ⟨"x"⟩)]
        ⟨"Fall 2025", "1258", "CSE 3666", "001", "Zhijie Shi", "h", "", "", ["h"], []⟩
      = ⟨"Fall 2025", "1258", "CSE 3666", "001", "Zhijie Shi", "h", "", "", ["h"], []⟩ :=
  ⟨spec_C9.1 ⟨none, false⟩ id "Fall 2025" "1258" ⟨"CSE 3666", "001", "Zhijie Shi", "h"⟩
      ⟨"Fall 2025", "1258", "CSE 3666", "001", "Zhijie Shi", "h", "", "", ["h"], []⟩
      (by decide),
   (spec_C9.2 "syllabi_downloads" [(false, ⟨"x"⟩)]
      ⟨"Fall 2025", "1258", "CSE 3666", "001", "Zhijie Shi", "h", "", "", ["h"], []⟩
      rfl rfl (fun r hr ht => by
        simp only [List.mem_singleton] at hr
        rw [hr] at ht
        cases ht)).2.1
     (fun r hr => by
        simp only [List.mem_singleton] at hr
        rw [hr])⟩

/-- C10: a parsed table row with an empty `href` (no anchor in the
syllabus-link cell) is still turned into a record whenever the department
filter passes (and only the department filter decides this), with
`syllabus_web_url = ""` and `file_urls = []` — for EVERY configuration, in
particular regardless of `no_download` (the config, including its
`noDownload` flag, is universally quantified). The per-term output is the
row list filtered through exactly this per-row construction. -/
theorem spec_C10 :
    (∀ (cfg : SpiderConfig) (f : String → String) (tn tc : String) (row : TableRow),
        row.href = "" →
        (deptDropped cfg (splitClass row.class_name).1 = false →
          mkRowItem cfg f tn tc row
            = some { term_name := tn, term_code := tc, class_name := row.class_name,
                     «section» := row.«section», instructor := row.instructor,
                     syllabus_web_url := "", syllabus_local_filepath := "",
                     syllabus_local_filename := "", file_urls := [], files := [] })
        ∧ (deptDropped cfg (splitClass row.class_name).1 = true →
          mkRowItem cfg f tn tc row = none))
    ∧ ∀ (cfg : SpiderConfig) (f : String → String) (tn tc : String) (page : ResultsPage),
        parseTermResults cfg f tn tc page
          = (parseResultsTable page).filterMap (mkRowItem cfg f tn tc) := by
  refine ⟨fun cfg f tn tc row hhref => ⟨fun hpass => ?_, fun hdrop => ?_⟩,
    fun _ _ _ _ _ => rfl⟩
  · unfold mkRowItem
    rw [if_neg (by rw [hpass]; exact Bool.false_ne_true)]
    have habs : (if row.href.isEmpty then "" else encodePipes (f row.href)) = "" := by
      rw [if_pos (by rw [hhref]; rfl)]
    rw [habs]
    rfl
  · unfold mkRowItem
    rw [if_pos hdrop]

/-- C10 witness: the anchor-less row at a concrete configuration with
`no_download` enabled and no department filter. -/
theorem spec_C10_witness :
    mkRowItem ⟨none, true⟩ id "Fall 2025" "1258" ⟨"CSE 3666", "001", "Zhijie Shi", ""⟩
      = some { term_name := "Fall 2025", term_code := "1258", class_name := "CSE 3666",
               «section» := "001", instructor := "Zhijie Shi",
               syllabus_web_url := "", syllabus_local_filepath := "",
               syllabus_local_filename := "", file_urls := [], files := [] } :=
  ((spec_C10.1 ⟨none, true⟩ id "Fall 2025" "1258"
      ⟨"CSE 3666", "001", "Zhijie Shi", ""⟩ rfl).1 (by decide))

end UconnSyllabi
